import Mathlib

/-
Verification of the distribution module of the satisfia repository
(src/satisfia/util/distribution.py), as a shallow embedding.

Modelling choices:
- Python float weights are embedded as exact rationals (ℚ); labels are integers
  (the module converts labels with int(...) in its closed-form statistics).
- A Python dict is an insertion-ordered association list; updates replace the
  value in place, inserts append at the end.
- Raised exceptions are modelled with an explicit error type: fallible
  operations return Except or pair the post-call object state with an
  Option error (Python mutations performed before a raise survive it).
- The injected random source is a parameter: the value it draws is passed
  explicitly to the sampling functions.
-/

namespace SatisfiaDist

/-- Errors raised by the distribution module: the ValueError("No categories")
guard of categorical._select, a dict KeyError carrying the missing key, the
TypeError of a bad call binding, and the ValueError of random.randint on an
empty range. -/
inductive PyErr : Type
  | noCategories : PyErr
  | keyError : Int → PyErr
  | typeError : PyErr
  | emptyRange : PyErr
deriving DecidableEq, Repr

/-- A Python dict from integer labels to weights, as an insertion-ordered
association list. -/
abbrev Dict := List (Int × ℚ)

/-- Dict lookup d[n]: the value stored at key n (the first match). -/
def lookup : Dict → Int → Option ℚ
  | [], _ => none
  | (k, v) :: rest, n => if k = n then some v else lookup rest n

/-- Dict update d[n] = w: replace the value in place when the key is present,
append a new entry otherwise (Python dict insertion-order semantics). -/
def dictSet : Dict → Int → ℚ → Dict
  | [], n, w => [(n, w)]
  | (k, v) :: rest, n, w => if k = n then (n, w) :: rest else (k, v) :: dictSet rest n w

/-- Removal of the entry at key n (del d[n] for a present key). -/
def dictDel : Dict → Int → Dict
  | [], _ => []
  | (k, v) :: rest, n => if k = n then rest else (k, v) :: dictDel rest n

/-- The keys of the dict in insertion order. -/
def dictKeys (d : Dict) : List Int := d.map Prod.fst

/-- The sum of all stored weights. -/
def sumWeights (d : Dict) : ℚ := (d.map Prod.snd).sum

/-- State of a categorical distribution object: the category mapping, the
running total weight, the dirty flag of the order cache, and the cached
descending-weight key order. -/
structure categorical : Type where
  categories : Dict
  weight_total : ℚ
  order_sticky : Bool
  order : List Int
deriving DecidableEq, Repr

/-- categorical.__init__: copy the mapping, total its weights, mark the order
cache dirty. The source leaves self._order unset until the first _select; it is
embedded as the empty list, which the dirty flag makes unobservable. -/
def categorical.init (cats : Dict) : categorical :=
  { categories := cats
    weight_total := sumWeights cats
    order_sticky := true
    order := [] }

/-- categorical.category_set(name, weight): subtract the previous weight of the
label when present, add the new weight, mark the cache dirty, store the entry. -/
def categorical.category_set (c : categorical) (name : Int) (weight : ℚ) : categorical :=
  { categories := dictSet c.categories name weight
    weight_total :=
      (match lookup c.categories name with
        | some w0 => c.weight_total - w0
        | none => c.weight_total) + weight
    order_sticky := true
    order := c.order }

/-- categorical.category_del(name): the weight adjustment is guarded by a
membership test and the dirty flag is set, but the final del of the dict entry
is unconditional, so an absent label raises KeyError after those two mutations
already happened. The returned state is the object after the call. -/
def categorical.category_del (c : categorical) (name : Int) : categorical × Option PyErr :=
  match lookup c.categories name with
  | some w0 =>
      ({ categories := dictDel c.categories name
         weight_total := c.weight_total - w0
         order_sticky := true
         order := c.order }, none)
  | none =>
      ({ c with order_sticky := true }, some (PyErr.keyError name))

/-- The recomputed order cache: sorted(keys, key = priority) with
priority(name) = -weight, i.e. a stable sort of the keys by descending weight
(Python sorted is a stable mergesort). -/
def sortedKeys (d : Dict) : List Int :=
  (dictKeys d).mergeSort (fun a b => decide ((lookup d b).getD 0 ≤ (lookup d a).getD 0))

/-- A value produced by categorical._select: normally a label; the fallback
line return self._categories[-1] instead produces the weight stored at the
key -1 when that key exists. -/
inductive SelectResult : Type
  | label : Int → SelectResult
  | weightAt : ℚ → SelectResult
deriving DecidableEq, Repr

/-- The scan loop of categorical._select followed by its fallback line: walk
the cached order subtracting each weight from the chance, return the first
label where the running value turns negative; when the loop exhausts, evaluate
self._categories[-1], a dict access with the key -1. -/
def selectScan (d : Dict) : List Int → ℚ → Except PyErr SelectResult
  | [], _ =>
      match lookup d (-1) with
      | some w => Except.ok (SelectResult.weightAt w)
      | none => Except.error (PyErr.keyError (-1))
  | name :: rest, chance =>
      match lookup d name with
      | none => Except.error (PyErr.keyError name)
      | some w =>
          if chance - w < 0 then Except.ok (SelectResult.label name)
          else selectScan d rest (chance - w)

/-- categorical._select(chance): raise when the mapping is empty; otherwise
rebuild the order cache when dirty and run the scan. Returns the state after
the call together with the result or raised error. -/
def categorical.select (c : categorical) (chance : ℚ) : categorical × Except PyErr SelectResult :=
  if c.categories.length = 0 then (c, Except.error PyErr.noCategories)
  else
    let c1 := if c.order_sticky
      then { c with order_sticky := false, order := sortedKeys c.categories }
      else c
    (c1, selectScan c1.categories c1.order chance)

/-- categorical._sample_single: chance is the value drawn by the injected
random source random.uniform(0, weight_total), a real in [0, weight_total)
(and exactly 0 when the total weight is 0). -/
def categorical.sample_single (c : categorical) (chance : ℚ) :
    categorical × Except PyErr SelectResult :=
  c.select chance

/-- categorical.median: a singleton list around _select(weight_total / 2). -/
def categorical.median (c : categorical) : categorical × Except PyErr SelectResult :=
  c.select (c.weight_total / 2)

/-- State of a uniform (discrete uniform) distribution object over the
inclusive integer range [low, high]; count stores high - low + 1. -/
structure uniform : Type where
  low : Int
  high : Int
  count : Int
deriving DecidableEq, Repr

/-- uniform.__init__(low, high). -/
def uniform.init (low high : Int) : uniform :=
  { low := low, high := high, count := high - low + 1 }

/-- The injected random source random.randint(low, high): returns its drawn
integer r (which the source guarantees lies in [low, high]), and raises
ValueError when the range is empty (low > high). -/
def randint (low high r : Int) : Except PyErr Int :=
  if high < low then Except.error PyErr.emptyRange else Except.ok r

/-- uniform._sample_single, with the drawn value injected. -/
def uniform.sample_single (u : uniform) (r : Int) : Except PyErr Int :=
  randint u.low u.high r

/-- uniform.median: left and right midpoints by Python floor division,
returned as a pair when they differ and as a singleton otherwise. -/
def uniform.median (u : uniform) : List Int :=
  let left := u.low + Int.fdiv (u.count - 1) 2
  let right := u.low + Int.fdiv u.count 2
  if left < right then [left, right] else [left]

/-- Body of _distribution.var(self, *, precision=64): the Bessel-corrected
sample variance of the drawn samples, dividing by precision - 1. -/
def var_body (samples : List ℚ) (precision : ℕ) : ℚ :=
  (samples.map (fun x => (x - samples.sum / (samples.length : ℚ)) ^ 2)).sum
    / ((precision : ℚ) - 1)

/-- A call of _distribution.var: the signature var(self, *, precision=64) makes
precision keyword-only, so binding any positional argument raises TypeError
before the body runs. -/
def var_call (samples : List ℚ) (posArgs : List ℕ) (kwPrecision : Option ℕ) :
    Except PyErr ℚ :=
  match posArgs with
  | [] => Except.ok (var_body samples (kwPrecision.getD 64))
  | _ :: _ => Except.error PyErr.typeError

/-- A call of _distribution.stddev(self, *, precision=64): the body is
torch.sqrt(self.var(precision)), passing precision positionally. The value here
is the argument handed to torch.sqrt; because the inner call raises, the square
root is never reached, so it needs no embedding. -/
def stddev_call (samples : List ℚ) (precision : ℕ) : Except PyErr ℚ :=
  var_call samples [precision] none

/-- Invariant: the stored running total equals the sum of the weights of the
entries currently in the mapping. -/
def totalOk (c : categorical) : Prop :=
  c.weight_total = sumWeights c.categories

/-- Invariant of the order cache: whenever the dirty flag is clear, the cached
order is the stable descending-weight sort of the current keys. -/
def cacheClean (c : categorical) : Prop :=
  c.order_sticky = false → c.order = sortedKeys c.categories

theorem lookup_dictSet_self (d : Dict) (n : Int) (w : ℚ) :
    lookup (dictSet d n w) n = some w := by
  induction d with
  | nil => simp [dictSet, lookup]
  | cons p rest ih =>
      obtain ⟨k, v⟩ := p
      by_cases h : k = n
      · simp [dictSet, lookup, h]
      · simp [dictSet, lookup, h, ih]

theorem sumWeights_cons (k : Int) (v : ℚ) (rest : Dict) :
    sumWeights ((k, v) :: rest) = v + sumWeights rest := by
  simp [sumWeights]

theorem sumWeights_dictSet (d : Dict) (n : Int) (w : ℚ) :
    sumWeights (dictSet d n w) = sumWeights d + w - (lookup d n).getD 0 := by
  induction d with
  | nil => simp [dictSet, sumWeights, lookup]
  | cons p rest ih =>
      obtain ⟨k, v⟩ := p
      by_cases h : k = n
      · simp only [dictSet, lookup, if_pos h, sumWeights_cons, Option.getD_some]
        ring
      · simp only [dictSet, lookup, if_neg h, sumWeights_cons, ih]
        ring

theorem sumWeights_dictDel (d : Dict) (n : Int) (w0 : ℚ)
    (h : lookup d n = some w0) :
    sumWeights (dictDel d n) = sumWeights d - w0 := by
  induction d with
  | nil => simp [lookup] at h
  | cons p rest ih =>
      obtain ⟨k, v⟩ := p
      by_cases hk : k = n
      · simp only [lookup, if_pos hk, Option.some.injEq] at h
        simp only [dictDel, if_pos hk, sumWeights_cons, h]
        ring
      · simp only [lookup, if_neg hk] at h
        simp only [dictDel, if_neg hk, sumWeights_cons, ih h]
        ring

/-- C1: remove of an absent label is not a no-op in the code: category_del of the
label 7 on the mapping with the single entry 0 ↦ 1 raises KeyError(7) instead of
returning normally, because the final del of the dict entry is unconditional. -/
theorem c1_category_del_absent_raises :
    ((categorical.init [((0 : Int), (1 : ℚ))]).category_del 7).2 =
      some (PyErr.keyError 7) := rfl

/-- C10: category_del with an absent label raises KeyError while leaving the
category mapping and the total weight unchanged, but the order-cache dirty flag
has already been set when the error is raised. -/
theorem c10_category_del_absent_effects (c : categorical) (name : Int)
    (h : lookup c.categories name = none) :
    (c.category_del name).2 = some (PyErr.keyError name) ∧
    (c.category_del name).1.categories = c.categories ∧
    (c.category_del name).1.weight_total = c.weight_total ∧
    (c.category_del name).1.order_sticky = true := by
  simp [categorical.category_del, h]

/-- Witness for C10 at the mapping 0 ↦ 1 and the absent label 7. -/
theorem c10_witness :
    ((categorical.init [((0 : Int), (1 : ℚ))]).category_del 7).2 =
      some (PyErr.keyError 7) :=
  (c10_category_del_absent_effects (categorical.init [((0 : Int), (1 : ℚ))]) 7 rfl).1

/-- C5: stddev never returns a number: var's precision parameter is keyword-only
and stddev forwards it positionally, so every call raises TypeError; bound by
keyword instead, the same body returns the Bessel-corrected sample variance. -/
theorem c5_stddev_always_type_error (samples : List ℚ) (precision : ℕ) :
    stddev_call samples precision = Except.error PyErr.typeError ∧
    var_call samples [] (some precision) = Except.ok (var_body samples precision) :=
  ⟨rfl, rfl⟩

/-- C3: when the scan exhausts without going negative, the code does not return
the last label of the descending order: on the single zero-weight category 1 the
fallback line raises KeyError(-1), and on the single zero-weight category -1 it
returns the weight stored at key -1 instead of a label. -/
theorem c3_fallback_not_last_label :
    ((categorical.init [((1 : Int), (0 : ℚ))]).select 0).2 =
      Except.error (PyErr.keyError (-1)) ∧
    ((categorical.init [((-1 : Int), (0 : ℚ))]).select 0).2 =
      Except.ok (SelectResult.weightAt 0) := by
  constructor
  · norm_num [categorical.select, categorical.init, sortedKeys, dictKeys,
      selectScan, lookup, sumWeights]
  · norm_num [categorical.select, categorical.init, sortedKeys, dictKeys,
      selectScan, lookup, sumWeights]

/-- C2 counterexample: sampling a categorical with the single category 0 of
weight 0 (total weight zero; random.uniform(0, 0) draws exactly 0) does not
fail with the distinct no-categories error: the scan exhausts and the fallback
dict access raises KeyError(-1), a missing-key error. -/
theorem c2_counterexample :
    ((categorical.init [((0 : Int), (0 : ℚ))]).sample_single 0).2 ≠
      Except.error PyErr.noCategories ∧
    ((categorical.init [((0 : Int), (0 : ℚ))]).sample_single 0).2 =
      Except.error (PyErr.keyError (-1)) := by
  constructor
  · norm_num [categorical.sample_single, categorical.select, categorical.init,
      sortedKeys, dictKeys, selectScan, lookup, sumWeights]
    decide
  · norm_num [categorical.sample_single, categorical.select, categorical.init,
      sortedKeys, dictKeys, selectScan, lookup, sumWeights]

/-- C2 amended: sampling an empty categorical raises the distinct no-categories
error, and sampling a uniform over an empty range raises the empty-range error
of the random source; but a categorical with a nonempty category set of zero
total weight instead exhausts the scan and raises the missing-key error of the
fallback line. -/
theorem c2_empty_distribution_errors (chance : ℚ) (low high r : Int)
    (hlr : high < low) :
    ((categorical.init []).sample_single chance).2 =
      Except.error PyErr.noCategories ∧
    (uniform.init low high).sample_single r = Except.error PyErr.emptyRange ∧
    ((categorical.init [((0 : Int), (0 : ℚ))]).sample_single 0).2 =
      Except.error (PyErr.keyError (-1)) := by
  refine ⟨rfl, ?_, ?_⟩
  · simp [uniform.sample_single, uniform.init, randint, hlr]
  · norm_num [categorical.sample_single, categorical.select, categorical.init,
      sortedKeys, dictKeys, selectScan, lookup, sumWeights]

/-- Witness for C2 at chance 0 and the empty range low = 1, high = 0. -/
theorem c2_witness :
    (uniform.init 1 0).sample_single 0 = Except.error PyErr.emptyRange :=
  (c2_empty_distribution_errors 0 1 0 0 (by decide)).2.1

/-- C4 counterexample: on the mapping 0 ↦ 1, upsert of label 0 with weight 5
followed by remove of label 0 leaves the total weight 0, not the pre-upsert 1:
for a label that was already present the remove deletes the entry outright, so
the round trip does not restore the total. -/
theorem c4_counterexample :
    (((categorical.init [((0 : Int), (1 : ℚ))]).category_set 0 5).category_del
        0).1.weight_total ≠
      (categorical.init [((0 : Int), (1 : ℚ))]).weight_total := by
  norm_num [categorical.init, categorical.category_set, categorical.category_del,
    dictSet, dictDel, lookup, sumWeights]

/-- C4 amended: upsert followed immediately by remove of the same label never
errors and leaves the total weight equal to its pre-upsert value minus the
label's previous weight (zero when the label was absent); in particular the
round trip restores the pre-upsert total exactly when the label was absent or
stored with weight zero, and not otherwise. -/
theorem c4_upsert_remove_roundtrip (c : categorical) (name : Int) (w : ℚ) :
    ((c.category_set name w).category_del name).2 = none ∧
    ((c.category_set name w).category_del name).1.weight_total =
      c.weight_total - (lookup c.categories name).getD 0 := by
  have hl := lookup_dictSet_self c.categories name w
  refine ⟨?_, ?_⟩
  · simp [categorical.category_del, categorical.category_set, hl]
  · cases h : lookup c.categories name with
    | none =>
        simp [categorical.category_del, categorical.category_set, hl, h]
    | some w0 =>
        simp [categorical.category_del, categorical.category_set, hl, h]

/-- C6: the stored total weight equals the sum of the mapping's weights at
construction; category_set moves the total by exactly the new weight minus the
label's previous weight (zero when absent) and preserves the equality; every
successful category_del preserves the equality as well. -/
theorem c6_weight_total_invariant :
    (∀ cats : Dict, totalOk (categorical.init cats)) ∧
    (∀ (c : categorical) (name : Int) (w : ℚ),
        (c.category_set name w).weight_total =
          c.weight_total + w - (lookup c.categories name).getD 0) ∧
    (∀ (c : categorical) (name : Int) (w : ℚ),
        totalOk c → totalOk (c.category_set name w)) ∧
    (∀ (c : categorical) (name : Int),
        totalOk c → (c.category_del name).2 = none →
          totalOk (c.category_del name).1) := by
  have hdelta : ∀ (c : categorical) (name : Int) (w : ℚ),
      (c.category_set name w).weight_total =
        c.weight_total + w - (lookup c.categories name).getD 0 := by
    intro c name w
    cases h : lookup c.categories name with
    | none => simp [categorical.category_set, h]
    | some w0 =>
        simp [categorical.category_set, h]
        ring
  refine ⟨fun cats => rfl, hdelta, ?_, ?_⟩
  · intro c name w ht
    show (c.category_set name w).weight_total =
      sumWeights (c.category_set name w).categories
    rw [hdelta c name w, ht]
    show sumWeights c.categories + w - (lookup c.categories name).getD 0 =
      sumWeights (dictSet c.categories name w)
    rw [sumWeights_dictSet]
  · intro c name ht hsucc
    cases h : lookup c.categories name with
    | none => simp [categorical.category_del, h] at hsucc
    | some w0 =>
        show (c.category_del name).1.weight_total =
          sumWeights (c.category_del name).1.categories
        simp [categorical.category_del, h,
          sumWeights_dictDel c.categories name w0 h]
        exact ht

/-- Witness for C6: the invariant holds after an upsert and after a successful
remove on the concrete mapping 0 ↦ 1. -/
theorem c6_witness :
    totalOk ((categorical.init [((0 : Int), (1 : ℚ))]).category_set 1 2) ∧
    totalOk ((categorical.init [((0 : Int), (1 : ℚ))]).category_del 0).1 :=
  ⟨c6_weight_total_invariant.2.2.1 (categorical.init [((0 : Int), (1 : ℚ))]) 1 2 rfl,
   c6_weight_total_invariant.2.2.2 (categorical.init [((0 : Int), (1 : ℚ))]) 0 rfl rfl⟩

/-- C7 counterexample: on an empty category set a query in the dirty state does
not recompute the order and does not clear the dirty flag: it raises the
no-categories error before touching the cache, leaving the state dirty. -/
theorem c7_counterexample :
    (categorical.init []).order_sticky = true ∧
    ((categorical.init []).select 0).1.order_sticky = true ∧
    ((categorical.init []).select 0).2 = Except.error PyErr.noCategories :=
  ⟨rfl, rfl, rfl⟩

/-- C7 amended: construction and every category_set / category_del set the
dirty flag; a query on a nonempty category set in the dirty state installs the
sorted order and clears the flag, while on an empty set the query raises and
leaves the state unchanged; the clean-implies-sorted cache invariant is
preserved by queries; and the installed order is a permutation of the current
keys arranged by descending weight. -/
theorem c7_cache_state_machine :
    (∀ cats : Dict, (categorical.init cats).order_sticky = true) ∧
    (∀ (c : categorical) (name : Int) (w : ℚ),
        (c.category_set name w).order_sticky = true) ∧
    (∀ (c : categorical) (name : Int),
        ((c.category_del name).1).order_sticky = true) ∧
    (∀ (c : categorical) (chance : ℚ), c.categories ≠ [] → c.order_sticky = true →
        (c.select chance).1.order_sticky = false ∧
        (c.select chance).1.order = sortedKeys c.categories) ∧
    (∀ (c : categorical) (chance : ℚ), c.categories = [] →
        (c.select chance).1 = c) ∧
    (∀ (c : categorical) (chance : ℚ), cacheClean c → cacheClean (c.select chance).1) ∧
    (∀ d : Dict, (sortedKeys d).Perm (dictKeys d) ∧
        (sortedKeys d).Pairwise (fun a b => (lookup d b).getD 0 ≤ (lookup d a).getD 0)) := by
  refine ⟨fun cats => rfl, fun c name w => rfl, ?_, ?_, ?_, ?_, ?_⟩
  · intro c name
    cases h : lookup c.categories name <;> simp [categorical.category_del, h]
  · intro c chance hne hdirty
    have hlen : ¬ c.categories.length = 0 := by simpa using hne
    simp [categorical.select, hlen, hdirty]
  · intro c chance he
    simp [categorical.select, he]
  · intro c chance hcc
    unfold cacheClean at hcc ⊢
    by_cases hlen : c.categories.length = 0
    · simp only [categorical.select, if_pos hlen]
      exact hcc
    · by_cases hsticky : c.order_sticky = true
      · simp [categorical.select, hlen, hsticky]
      · have hs : c.order_sticky = false := by
          cases hb : c.order_sticky
          · rfl
          · exact absurd hb hsticky
        simp only [categorical.select, if_neg hlen, hs, Bool.false_eq_true,
          if_false, if_neg]
        exact fun _ => hcc hs
  · intro d
    have htrans : ∀ a b c : Int,
        decide ((lookup d b).getD 0 ≤ (lookup d a).getD 0) = true →
        decide ((lookup d c).getD 0 ≤ (lookup d b).getD 0) = true →
        decide ((lookup d c).getD 0 ≤ (lookup d a).getD 0) = true := by
      intro a b c hab hbc
      simp only [decide_eq_true_eq] at hab hbc ⊢
      exact le_trans hbc hab
    have htotal : ∀ a b : Int,
        (decide ((lookup d b).getD 0 ≤ (lookup d a).getD 0) ||
          decide ((lookup d a).getD 0 ≤ (lookup d b).getD 0)) = true := by
      intro a b
      simp only [Bool.or_eq_true, decide_eq_true_eq]
      exact le_total _ _
    constructor
    · exact List.mergeSort_perm (dictKeys d) _
    · have hp := List.sorted_mergeSort htrans htotal (dictKeys d)
      exact hp.imp (fun hab => by simpa using hab)

/-- Witness for C7: a dirty-state query on the nonempty mapping 0 ↦ 1 clears
the dirty flag. -/
theorem c7_witness :
    ((categorical.init [((0 : Int), (1 : ℚ))]).select 0).1.order_sticky = false :=
  (c7_cache_state_machine.2.2.2.1 (categorical.init [((0 : Int), (1 : ℚ))]) 0
    (by decide) rfl).1

/-- C8: a categorical whose mapping holds exactly one category a of weight
w > 0 samples that category for every drawable chance in [0, w), assuming the
order-cache invariant (which every reachable state satisfies). -/
theorem c8_singleton_always_selected (c : categorical) (a : Int) (w chance : ℚ)
    (hc : c.categories = [(a, w)]) (hclean : cacheClean c)
    (hw : 0 < w) (h0 : 0 ≤ chance) (hlt : chance < w) :
    (c.sample_single chance).2 = Except.ok (SelectResult.label a) := by
  have hw1 : chance - w < 0 := by linarith
  have hlen : ¬ c.categories.length = 0 := by simp [hc]
  cases hs : c.order_sticky with
  | true =>
      simp [categorical.sample_single, categorical.select, hlen, hs, hc,
        sortedKeys, dictKeys, selectScan, lookup, hw1]
  | false =>
      have ho : c.order = [a] := by
        rw [hclean hs, hc]
        simp [sortedKeys, dictKeys]
      simp [categorical.sample_single, categorical.select, hlen, hs, ho, hc,
        selectScan, lookup, hw1]

/-- Witness for C8 on the fresh singleton mapping 0 ↦ 1 with the drawn value 0. -/
theorem c8_witness :
    ((categorical.init [((0 : Int), (1 : ℚ))]).sample_single 0).2 =
      Except.ok (SelectResult.label 0) :=
  c8_singleton_always_selected (categorical.init [((0 : Int), (1 : ℚ))]) 0 1 0 rfl
    (fun h => nomatch h) zero_lt_one (le_refl 0) zero_lt_one

/-- The midpoint of the inclusive integer range [low, high] in the spec's
words: the two middle integers when the element count is even, the single
middle integer when it is odd. Stated for comparison with uniform.median. -/
def rangeMiddle (low high : Int) : List Int :=
  let n := high - low + 1
  if n % 2 = 0 then [low + n / 2 - 1, low + n / 2] else [low + (n - 1) / 2]

/-- C9: for every low ≤ high, uniform.median returns exactly the middle
integer(s) of the range: a pair on an even element count and a singleton on an
odd one. -/
theorem c9_uniform_median_middle (low high : Int) (h : low ≤ high) :
    (uniform.init low high).median = rangeMiddle low high := by
  have hfd : ∀ a : Int, Int.fdiv a 2 = a / 2 := fun a =>
    Int.fdiv_eq_ediv a (by norm_num)
  simp only [uniform.median, uniform.init, rangeMiddle, hfd]
  split_ifs with h1 h2 h3 <;> simp_all [List.cons.injEq] <;> omega

/-- Witness for C9 at the range [1, 6] of the spec's test vector. -/
theorem c9_witness : (uniform.init 1 6).median = rangeMiddle 1 6 :=
  c9_uniform_median_middle 1 6 (by decide)

end SatisfiaDist
